import Mathlib

/-
Verification of the TorchScript source importer (torch/csrc/jit/import_source.cpp).

The file shallowly embeds the importer's data model and operations:
tensors in the constant pool are opaque identifiers, modules are trees of
named submodules / parameter slots / buffer slots / typed attribute slots /
methods, sugared values are a tagged variant, and errors thrown through
ErrorReport are structured error values. External collaborators that the
importer calls but that live outside this translation unit (the lexer, the
AST views, Method slot interning, defineMethodsInModule) are modelled from
the specification and marked as such in their doc comments.
-/

set_option maxHeartbeats 1000000

namespace ImportSource

/-- Opaque literal tensor constant stored in the model's constant pool. -/
structure Tensor where
  id : Nat
deriving DecidableEq, Inhabited

/-- A slot names a typed storage location inside a module (NamedIValue::slot). -/
abbrev Slot := Nat

/-- Declared type of an attribute slot, kept opaque. -/
abbrev Ty := String

/-- Errors thrown via ErrorReport in import_source.cpp, as structured data. -/
inductive ImportErr where
  | unknownAttr (field : String)
  | invalidConstantSpecifier (field : String)
  | constantIndexOutOfBounds (idx : Int) (size : Nat)
  | expectFailed
  | notOpVersionSet
  | notIntegralVersion (text : String)
  | externalParseError
deriving DecidableEq

deriving instance DecidableEq for Except

/-- Whitespace characters skipped by C strtoll (isspace in the default locale). -/
def isSpaceC (c : Char) : Bool :=
  c == ' ' || c == '\t' || c == '\n' || c == '\x0b' || c == '\x0c' || c == '\r'

/-- Numeric value of a list of decimal digit characters, most significant first. -/
def digitsToNat (ds : List Char) : Nat :=
  ds.foldl (fun a c => a * 10 + (c.toNat - 48)) 0

/-- Largest value representable in a signed 64-bit long long (LLONG_MAX). -/
def llmax : Int := 2 ^ 63 - 1

/-- Smallest value representable in a signed 64-bit long long (LLONG_MIN). -/
def llmin : Int := -(2 ^ 63)

/-- Saturation of an out-of-range conversion result, as strtoll performs. -/
def clampll (v : Int) : Int := max llmin (min llmax v)

/-- Sign handling of strtoll: one optional leading plus or minus sign. -/
def splitSign : List Char → Bool × List Char
  | '-' :: r => (true, r)
  | '+' :: r => (false, r)
  | r => (false, r)

/-- Model of C strtoll with base 10, acting on the characters that follow the
pointer passed in: skips whitespace, reads an optional sign and then a run of
decimal digits. Returns the converted value and the suffix the end pointer is
left at. When no digits are found, no conversion is performed: the result is 0
and the end pointer is reset to the original input. On overflow the result
saturates to LLONG_MAX / LLONG_MIN. -/
def strtoll10 (s : List Char) : Int × List Char :=
  let t := s.dropWhile isSpaceC
  let p := splitSign t
  let ds := p.2.takeWhile Char.isDigit
  if ds = [] then (0, s)
  else
    (clampll (if p.1 then -(digitsToNat ds : Int) else (digitsToNat ds : Int)),
     p.2.dropWhile Char.isDigit)

/-- ConstantTableValue::attr of import_source.cpp: runs strtoll on the field
text starting after its first character, rejects the field as an invalid
constant specifier when it is shorter than two characters or when the parse
did not consume the whole remainder, bounds-checks the parsed offset against
the pool size, and on success materializes the pool entry. -/
def ConstantTableValue.attr (constants : List Tensor) (field : String) :
    Except ImportErr Tensor :=
  if field.length < 2 ∨ (strtoll10 (field.data.drop 1)).2 ≠ [] then
    .error (.invalidConstantSpecifier field)
  else if (strtoll10 (field.data.drop 1)).1 < 0 ∨
      (constants.length : Int) ≤ (strtoll10 (field.data.drop 1)).1 then
    .error (.constantIndexOutOfBounds ((strtoll10 (field.data.drop 1)).1)
      constants.length)
  else .ok (constants.getD ((strtoll10 (field.data.drop 1)).1.toNat) default)

/-- The specifier pattern stated by the spec for the constant pool: the letter
c followed by one or more decimal digits and nothing else. -/
def matchesCDigits (field : String) : Bool :=
  match field.data with
  | 'c' :: rest => !rest.isEmpty && rest.all Char.isDigit
  | _ => false

/-- Shape of a character list that strtoll (base 10) consumes completely:
optional whitespace, then an optional single sign, then one or more digits. -/
def validStrtollSuffix (s : List Char) : Prop :=
  ∃ w sg ds, s = w ++ sg ++ ds ∧ (∀ c ∈ w, isSpaceC c = true) ∧
    (sg = [] ∨ sg = ['+'] ∨ sg = ['-']) ∧ ds ≠ [] ∧ (∀ c ∈ ds, c.isDigit = true)

/-- script::Module, restricted to what import_source.cpp observes: ordered
named submodules, parameter slots, buffer slots, typed attribute slots and
method names. -/
inductive Module where
  | mk (submodules : List (String × Module))
       (parameters : List (String × Slot))
       (buffers : List (String × Slot))
       (attrs : List (String × Ty × Slot))
       (methods : List String)

/-- Named submodules of a module, in registration order. -/
def Module.submodules : Module → List (String × Module)
  | .mk s _ _ _ _ => s

/-- Named parameter slots of a module. -/
def Module.parameters : Module → List (String × Slot)
  | .mk _ p _ _ _ => p

/-- Named buffer slots of a module. -/
def Module.buffers : Module → List (String × Slot)
  | .mk _ _ b _ _ => b

/-- Named typed attribute slots of a module. -/
def Module.attrs : Module → List (String × Ty × Slot)
  | .mk _ _ _ a _ => a

/-- Names of the methods already attached to a module. -/
def Module.methods : Module → List String
  | .mk _ _ _ _ m => m

/-- A freshly constructed module, as made by import_libs for each class. -/
def emptyModule : Module := .mk [] [] [] [] []

/-- Attach further methods to a module, keeping everything else. -/
def Module.addMethods : Module → List String → Module
  | .mk s p b a m, ms => .mk s p b a (m ++ ms)

/-- Module::find_module: first submodule registered under the field name. -/
def Module.find_module (mod : Module) (field : String) : Option Module :=
  ((mod.submodules).find? (fun p => p.1 == field)).map (fun p => p.2)

/-- Module::find_parameter: first parameter slot under the field name. -/
def Module.find_parameter (mod : Module) (field : String) : Option Slot :=
  ((mod.parameters).find? (fun p => p.1 == field)).map (fun p => p.2)

/-- Module::find_buffer: first buffer slot under the field name. -/
def Module.find_buffer (mod : Module) (field : String) : Option Slot :=
  ((mod.buffers).find? (fun p => p.1 == field)).map (fun p => p.2)

/-- Module::find_attribute: first typed attribute slot under the field name. -/
def Module.find_attribute (mod : Module) (field : String) : Option (Ty × Slot) :=
  ((mod.attrs).find? (fun p => p.1 == field)).map (fun p => p.2)

/-- Module::find_method: the method attached under the field name, if any. -/
def Module.find_method (mod : Module) (field : String) : Option String :=
  (mod.methods).find? (fun n => n == field)

/-- Modelled from the spec: Method::get_or_add_parameter and
Method::get_or_add_attribute live in module.h, which is not part of this
translation unit. Per the spec they intern the slot into the method being
compiled: a slot already interned yields its existing graph input, a new slot
is appended at the end. This helper returns the input index and new list. -/
def internSlot : List Slot → Slot → Nat × List Slot
  | [], s => (0, [s])
  | t :: ts, s =>
    if t = s then (0, t :: ts)
    else ((internSlot ts s).1 + 1, t :: (internSlot ts s).2)

/-- Per-method compilation state: the slots interned so far as extra inputs of
the method being compiled. -/
structure MethodState where
  member_inputs : List Slot
deriving DecidableEq

/-- A compiled-graph value as far as the importer observes one: a reference to
an interned slot input, optionally carrying a declared attribute type. -/
inductive Value where
  | slotRef (idx : Nat)
  | typedSlotRef (ty : Ty) (idx : Nat)
deriving DecidableEq

/-- Modelled from the spec: Method::get_or_add_parameter (module.h, outside
this translation unit) interns the slot and returns the graph input for it. -/
def Method.get_or_add_parameter (st : MethodState) (s : Slot) :
    Value × MethodState :=
  (Value.slotRef (internSlot st.member_inputs s).1,
   ⟨(internSlot st.member_inputs s).2⟩)

/-- Modelled from the spec: Method::get_or_add_attribute (module.h, outside
this translation unit) interns the slot like a parameter and types the
resulting graph input with the declared attribute type. -/
def Method.get_or_add_attribute (st : MethodState) (ty : Ty) (s : Slot) :
    Value × MethodState :=
  (Value.typedSlotRef ty (internSlot st.member_inputs s).1,
   ⟨(internSlot st.member_inputs s).2⟩)

/-- Symbolic model of the two C++ double constants the importer builds
(std::numeric_limits infinity and quiet_NaN). -/
inductive DoubleVal where
  | posInf
  | quietNaN
deriving DecidableEq

/-- The interpreter values the importer wraps in ConstantValue. -/
inductive IValue where
  | double (v : DoubleVal)
deriving DecidableEq

/-- The tagged variant of sugared values produced by import_source.cpp. -/
inductive SugaredValue where
  | moduleAccessor (mod : Module)
  | simpleValue (v : Value)
  | methodValue (owner : Module) (method : String)
  | builtinModule (name : String) (version : Nat)
  | opsValue (version : Nat)
  | constantTable (constants : List Tensor)
  | forkValue
  | annotateValue
  | constantValue (v : IValue)

/-- ModuleAccessorValue::attr of import_source.cpp: resolves a field on a
module, first match among submodule, parameter, buffer, typed attribute and
method winning, and reports an unknown attr naming the field otherwise. -/
def ModuleAccessorValue.attr (mod : Module) (st : MethodState) (field : String) :
    Except ImportErr (SugaredValue × MethodState) :=
  match mod.find_module field with
  | some v => .ok (.moduleAccessor v, st)
  | none =>
    match mod.find_parameter field with
    | some s =>
      .ok (.simpleValue (Method.get_or_add_parameter st s).1,
           (Method.get_or_add_parameter st s).2)
    | none =>
      match mod.find_buffer field with
      | some s =>
        .ok (.simpleValue (Method.get_or_add_parameter st s).1,
             (Method.get_or_add_parameter st s).2)
      | none =>
        match mod.find_attribute field with
        | some ts =>
          .ok (.simpleValue (Method.get_or_add_attribute st ts.1 ts.2).1,
               (Method.get_or_add_attribute st ts.1 ts.2).2)
        | none =>
          match mod.find_method field with
          | some mn => .ok (.methodValue mod mn, st)
          | none => .error (.unknownAttr field)

/-- OpsValue::attr of import_source.cpp: every field resolves to a builtin
operator namespace carrying the source unit's version forward. -/
def OpsValue.attr (version : Nat) (field : String) : SugaredValue :=
  .builtinModule field version

/-- The fixed symbol table built by the SourceImporter constructor. -/
def SourceImporter.env (version : Nat) (constant_table : List Tensor) :
    List (String × SugaredValue) :=
  [("torch", .builtinModule ("aten") version),
   ("ops", .opsValue version),
   ("CONSTANTS", .constantTable constant_table),
   ("fork", .forkValue),
   ("annotate", .annotateValue),
   ("inf", .constantValue (.double .posInf)),
   ("nan", .constantValue (.double .quietNaN))]

/-- The resolver closure of the SourceImporter constructor: looks the name up
in the environment and returns null (none) when it is absent. -/
def SourceImporter.resolver (env : List (String × SugaredValue)) (name : String) :
    Option SugaredValue :=
  (env.find? (fun p => p.1 == name)).map (fun p => p.2)

/-- Modelled from the spec: the token stream produced by the external lexer
(lexer.h, outside this translation unit). A number token records its text
together with the integral flag and the non-negative value that
Const::isIntegral and Const::asIntegral of tree_views.h (also external)
compute from that text. -/
inductive Token where
  | ident (text : String)
  | eq
  | number (text : String) (val : Nat) (integral : Bool)
  | newline
  | eof
deriving DecidableEq

/-- SourceImporter::parseVersionNumber of import_source.cpp: expects, in
order, an identifier, an equals sign, a number and a newline, and only then
checks that the identifier is literally op_version_set and that the number is
integral; returns the parsed version and the tokens after the line. -/
def parseVersionNumber : List Token → Except ImportErr (Nat × List Token)
  | .ident name :: .eq :: .number text val integral :: .newline :: rest =>
    if name ≠ ("op_version_set") then .error .notOpVersionSet
    else if integral = false then .error (.notIntegralVersion text)
    else .ok (val, rest)
  | _ => .error .expectFailed

/-- Modelled from the spec: a method-shaped definition produced by the
external parser (parser.h); only its name is observed by this component. -/
structure Def where
  name : String
deriving DecidableEq

/-- The self binding passed to the external compiler: import_methods wraps a
sugared module accessor, import_libs a class type created over the fresh
module under the class name. -/
inductive Self where
  | sugared (v : SugaredValue)
  | classType (name : String) (mod : Module)

/-- One method attached by the external compiler: the definition's name, the
self binding it was compiled with, and the resolver environment it used. -/
structure Attachment where
  defName : String
  selfBinding : Self
  resolverEnv : List (String × SugaredValue)

/-- Modelled from the spec: defineMethodsInModule is the external compiler
(compiler.h, outside this translation unit). Per the spec it compiles each
definition with its paired resolver and the given self binding and attaches
every compiled method to the given module. -/
def defineMethodsInModule (mod : Module) (defs : List Def)
    (resolvers : List (List (String × SugaredValue))) (self : Self) :
    Module × List Attachment :=
  (mod.addMethods (defs.map (fun d => d.name)),
   (defs.zip resolvers).map (fun p => ⟨p.1.name, self, p.2⟩))

/-- Modelled from the spec: the parse loop of import_methods drives the
external parser's parseFunction once per definition until end of input; a
definition that fails to parse raises immediately, ending the loop. -/
def parseFunctions : List (Except ImportErr Def) → Except ImportErr (List Def)
  | [] => .ok []
  | .error e :: _ => .error e
  | .ok d :: rest =>
    match parseFunctions rest with
    | .error e => .error e
    | .ok ds => .ok (d :: ds)

/-- import_methods of import_source.cpp: builds the importer (parsing the
version header and the environment), parses every definition to completion,
and only then calls defineMethodsInModule once with the module, all
definitions, one copy of the shared resolver per definition, and self bound
to a module accessor over the target module. The pair holds the resulting
module with its attachments and the error, if any, that aborted the call;
on an abort the module is returned untouched with no attachments. -/
def import_methods (mod : Module) (tokens : List Token)
    (raws : List (Except ImportErr Def)) (constant_table : List Tensor) :
    (Module × List Attachment) × Option ImportErr :=
  match parseVersionNumber tokens with
  | .error e => ((mod, []), some e)
  | .ok (version, _) =>
    match parseFunctions raws with
    | .error e => ((mod, []), some e)
    | .ok defs =>
      (defineMethodsInModule mod defs
        (defs.map (fun _ => SourceImporter.env version constant_table))
        (.sugared (.moduleAccessor mod)), none)

/-- Modelled from the spec: a class definition produced by the external
parser's parseClass, a named group of method definitions. -/
structure ClassDef where
  name : String
  defs : List Def

/-- The per-class loop of import_libs: each parsed class gets one fresh empty
module and a self binding that is a class type created under the class's name
over that fresh module; its methods are compiled against that module only.
Classes already processed when a later parse fails stay processed. -/
def importClasses (env : List (String × SugaredValue)) :
    List (Except ImportErr ClassDef) →
    List (Module × List Attachment) × Option ImportErr
  | [] => ([], none)
  | .error e :: _ => ([], some e)
  | .ok cd :: rest =>
    ((defineMethodsInModule emptyModule cd.defs (cd.defs.map (fun _ => env))
        (.classType cd.name emptyModule)) :: (importClasses env rest).1,
     (importClasses env rest).2)

/-- import_libs of import_source.cpp: builds the importer once for the whole
source unit, then processes each class with importClasses. -/
def import_libs (tokens : List Token) (raws : List (Except ImportErr ClassDef))
    (constant_table : List Tensor) :
    List (Module × List Attachment) × Option ImportErr :=
  match parseVersionNumber tokens with
  | .error e => ([], some e)
  | .ok (version, _) =>
    importClasses (SourceImporter.env version constant_table) raws

theorem not_space_of_digit (c : Char) (h : c.isDigit = true) : isSpaceC c = false := by
  by_cases h1 : c = ' '
  · subst h1; exact absurd h (by decide)
  by_cases h2 : c = '\t'
  · subst h2; exact absurd h (by decide)
  by_cases h3 : c = '\n'
  · subst h3; exact absurd h (by decide)
  by_cases h4 : c = '\x0b'
  · subst h4; exact absurd h (by decide)
  by_cases h5 : c = '\x0c'
  · subst h5; exact absurd h (by decide)
  by_cases h6 : c = '\r'
  · subst h6; exact absurd h (by decide)
  simp [isSpaceC, h1, h2, h3, h4, h5, h6]

theorem digit_ne_minus (c : Char) (h : c.isDigit = true) : c ≠ '-' := by
  intro e; subst e; exact absurd h (by decide)

theorem digit_ne_plus (c : Char) (h : c.isDigit = true) : c ≠ '+' := by
  intro e; subst e; exact absurd h (by decide)

theorem splitSign_other (c : Char) (r : List Char) (h1 : c ≠ '-') (h2 : c ≠ '+') :
    splitSign (c :: r) = (false, c :: r) := by
  unfold splitSign
  split
  · rename_i heq; injection heq with hc _; exact absurd hc h1
  · rename_i heq; injection heq with hc _; exact absurd hc h2
  · rfl

theorem splitSign_cases (t : List Char) :
    (t = ['-'] ++ (splitSign t).2 ∧ (splitSign t).1 = true) ∨
    (t = ['+'] ++ (splitSign t).2 ∧ (splitSign t).1 = false) ∨
    (t = (splitSign t).2 ∧ (splitSign t).1 = false) := by
  cases t with
  | nil => right; right; exact ⟨rfl, rfl⟩
  | cons c r =>
    by_cases h1 : c = '-'
    · subst h1; left; exact ⟨rfl, rfl⟩
    by_cases h2 : c = '+'
    · subst h2; right; left; exact ⟨rfl, rfl⟩
    · right; right; rw [splitSign_other c r h1 h2]; exact ⟨rfl, rfl⟩

theorem dropWhile_append_of_forall {p : Char → Bool} {w : List Char} (r : List Char)
    (h : ∀ c ∈ w, p c = true) :
    List.dropWhile p (w ++ r) = List.dropWhile p r := by
  induction w with
  | nil => rfl
  | cons a as ih =>
    have ha : p a = true := h a (List.mem_cons_self a as)
    simp only [List.cons_append, List.dropWhile_cons, ha, if_true]
    exact ih (fun c hc => h c (List.mem_cons_of_mem a hc))

theorem takeWhile_eq_self_of_forall {p : Char → Bool} {l : List Char}
    (h : ∀ c ∈ l, p c = true) : l.takeWhile p = l := by
  induction l with
  | nil => rfl
  | cons a as ih =>
    simp only [List.takeWhile_cons, h a (List.mem_cons_self a as), if_true]
    rw [ih (fun c hc => h c (List.mem_cons_of_mem a hc))]

theorem dropWhile_eq_nil_of_forall {p : Char → Bool} {l : List Char}
    (h : ∀ c ∈ l, p c = true) : l.dropWhile p = [] := by
  induction l with
  | nil => rfl
  | cons a as ih =>
    simp only [List.dropWhile_cons, h a (List.mem_cons_self a as), if_true]
    exact ih (fun c hc => h c (List.mem_cons_of_mem a hc))

theorem dropWhile_cons_of_neg {p : Char → Bool} {c : Char} (l : List Char)
    (h : p c = false) : List.dropWhile p (c :: l) = c :: l := by
  rw [List.dropWhile_cons, if_neg]
  simp [h]

theorem strtoll10_digits (ds : List Char) (hne : ds ≠ [])
    (hdig : ∀ c ∈ ds, c.isDigit = true) :
    strtoll10 ds = (clampll ((digitsToNat ds : Int)), []) := by
  obtain ⟨d, ds2, rfl⟩ := List.exists_cons_of_ne_nil hne
  have hd := hdig d (List.mem_cons_self d ds2)
  have h1 : List.dropWhile isSpaceC (d :: ds2) = d :: ds2 :=
    dropWhile_cons_of_neg ds2 (not_space_of_digit d hd)
  have h2 : splitSign (d :: ds2) = (false, d :: ds2) :=
    splitSign_other d ds2 (digit_ne_minus d hd) (digit_ne_plus d hd)
  have h3 : List.takeWhile Char.isDigit (d :: ds2) = d :: ds2 :=
    takeWhile_eq_self_of_forall hdig
  have h4 : List.dropWhile Char.isDigit (d :: ds2) = [] :=
    dropWhile_eq_nil_of_forall hdig
  simp [strtoll10, h1, h2, h3, h4]

theorem strtoll10_consumed_iff (s : List Char) (hs : s ≠ []) :
    (strtoll10 s).2 = [] ↔ validStrtollSuffix s := by
  by_cases hds : (splitSign (s.dropWhile isSpaceC)).2.takeWhile Char.isDigit = []
  · have hval : (strtoll10 s).2 = s := by simp [strtoll10, hds]
    rw [hval]
    constructor
    · intro h; exact absurd h hs
    · rintro ⟨w, sg, ds, rfl, hw, hsg, hdne, hdig⟩
      exfalso
      have ht : (w ++ sg ++ ds).dropWhile isSpaceC = sg ++ ds := by
        rw [List.append_assoc, dropWhile_append_of_forall (sg ++ ds) hw]
        obtain ⟨d, ds2, rfl⟩ := List.exists_cons_of_ne_nil hdne
        have hd := hdig d (List.mem_cons_self d ds2)
        rcases hsg with rfl | rfl | rfl
        · exact dropWhile_cons_of_neg ds2 (not_space_of_digit d hd)
        · exact dropWhile_cons_of_neg (d :: ds2) rfl
        · exact dropWhile_cons_of_neg (d :: ds2) rfl
      rw [ht] at hds
      have hp2 : (splitSign (sg ++ ds)).2 = ds := by
        obtain ⟨d, ds2, rfl⟩ := List.exists_cons_of_ne_nil hdne
        have hd := hdig d (List.mem_cons_self d ds2)
        rcases hsg with rfl | rfl | rfl
        · rw [List.nil_append,
            splitSign_other d ds2 (digit_ne_minus d hd) (digit_ne_plus d hd)]
        · rfl
        · rfl
      rw [hp2, takeWhile_eq_self_of_forall hdig] at hds
      exact hdne hds
  · have hval : (strtoll10 s).2 =
        (splitSign (s.dropWhile isSpaceC)).2.dropWhile Char.isDigit := by
      simp [strtoll10, hds]
    rw [hval]
    constructor
    · intro h
      have hsplit :=
        List.takeWhile_append_dropWhile Char.isDigit
          (splitSign (s.dropWhile isSpaceC)).2
      rw [h, List.append_nil] at hsplit
      -- the part after the sign is wholly digits and nonempty
      have hdig : ∀ c ∈ (splitSign (s.dropWhile isSpaceC)).2, c.isDigit = true := by
        intro c hc
        rw [← hsplit] at hc
        exact List.mem_takeWhile_imp hc
      have hwmem : ∀ c ∈ s.takeWhile isSpaceC, isSpaceC c = true := by
        intro c hc; exact List.mem_takeWhile_imp hc
      have hsdecomp := List.takeWhile_append_dropWhile isSpaceC s
      rcases splitSign_cases (s.dropWhile isSpaceC) with ⟨hsg, _⟩ | ⟨hsg, _⟩ | ⟨hsg, _⟩
      · refine ⟨s.takeWhile isSpaceC, ['-'],
          (splitSign (s.dropWhile isSpaceC)).2, ?_, hwmem, Or.inr (Or.inr rfl), ?_, hdig⟩
        · rw [List.append_assoc, ← hsg, hsdecomp]
        · intro h0; rw [h0] at hds; exact hds rfl
      · refine ⟨s.takeWhile isSpaceC, ['+'],
          (splitSign (s.dropWhile isSpaceC)).2, ?_, hwmem, Or.inr (Or.inl rfl), ?_, hdig⟩
        · rw [List.append_assoc, ← hsg, hsdecomp]
        · intro h0; rw [h0] at hds; exact hds rfl
      · refine ⟨s.takeWhile isSpaceC, [],
          (splitSign (s.dropWhile isSpaceC)).2, ?_, hwmem, Or.inl rfl, ?_, hdig⟩
        · rw [List.append_assoc, List.nil_append, ← hsg, hsdecomp]
        · intro h0; rw [h0] at hds; exact hds rfl
    · rintro ⟨w, sg, ds, rfl, hw, hsg, hdne, hdig⟩
      have ht : (w ++ sg ++ ds).dropWhile isSpaceC = sg ++ ds := by
        rw [List.append_assoc, dropWhile_append_of_forall (sg ++ ds) hw]
        obtain ⟨d, ds2, rfl⟩ := List.exists_cons_of_ne_nil hdne
        have hd := hdig d (List.mem_cons_self d ds2)
        rcases hsg with rfl | rfl | rfl
        · exact dropWhile_cons_of_neg ds2 (not_space_of_digit d hd)
        · exact dropWhile_cons_of_neg (d :: ds2) rfl
        · exact dropWhile_cons_of_neg (d :: ds2) rfl
      have hp2 : (splitSign ((w ++ sg ++ ds).dropWhile isSpaceC)).2 = ds := by
        rw [ht]
        obtain ⟨d, ds2, rfl⟩ := List.exists_cons_of_ne_nil hdne
        have hd := hdig d (List.mem_cons_self d ds2)
        rcases hsg with rfl | rfl | rfl
        · rw [List.nil_append,
            splitSign_other d ds2 (digit_ne_minus d hd) (digit_ne_plus d hd)]
        · rfl
        · rfl
      rw [hp2]
      exact dropWhile_eq_nil_of_forall hdig

theorem clampll_of_le (v : Int) (h0 : 0 ≤ v) (h1 : v ≤ llmax) : clampll v = v := by
  unfold clampll
  rw [min_eq_right h1, max_eq_right]
  unfold llmin
  omega

/-- C1 counterexample: the field x0 does not match the pattern letter c
followed by digits, yet the constant-pool accessor accepts it (the code never
inspects the first character of the field), so it is not rejected with
InvalidConstantSpecifierError as the claim requires. -/
theorem c1_counterexample :
    matchesCDigits ("x0") = false ∧
    ConstantTableValue.attr [⟨0⟩] ("x0") = .ok ⟨0⟩ := by
  exact ⟨rfl, rfl⟩

/-- C1 (amended): the constant-pool accessor raises
InvalidConstantSpecifierError exactly when the field is shorter than two
characters or the text after its first character is not consumed completely by
a base-10 strtoll parse (optional whitespace, optional sign, then one or more
digits). The first character is never examined, so c, cx, c3x and 3 are all
rejected, but for example x0 is accepted. -/
theorem c1_invalid_specifier_iff (constants : List Tensor) (field : String) :
    ConstantTableValue.attr constants field =
      .error (.invalidConstantSpecifier field) ↔
    (field.length < 2 ∨ ¬ validStrtollSuffix (field.data.drop 1)) := by
  by_cases hlen : field.length < 2
  · constructor
    · intro _; exact Or.inl hlen
    · intro _
      unfold ConstantTableValue.attr
      rw [if_pos (Or.inl hlen)]
  · have hs : field.data.drop 1 ≠ [] := by
      intro h0
      have hle := List.drop_eq_nil_iff.mp h0
      exact hlen (Nat.lt_succ_of_le hle)
    have hiff := strtoll10_consumed_iff (field.data.drop 1) hs
    by_cases hrest : (strtoll10 (field.data.drop 1)).2 = []
    · have hval := hiff.mp hrest
      have hcond : ¬ (field.length < 2 ∨
          (strtoll10 (field.data.drop 1)).2 ≠ []) := by
        intro h
        exact h.elim hlen (fun h2 => h2 hrest)
      constructor
      · intro h
        unfold ConstantTableValue.attr at h
        rw [if_neg hcond] at h
        by_cases hb : ((strtoll10 (field.data.drop 1)).1 < 0 ∨
            ((constants.length : Int) ≤ (strtoll10 (field.data.drop 1)).1))
        · rw [if_pos hb] at h; exact absurd h (by simp)
        · rw [if_neg hb] at h; exact absurd h (by simp)
      · intro h
        rcases h with h | h
        · exact absurd h hlen
        · exact absurd hval h
    · constructor
      · intro _
        exact Or.inr (fun hv => hrest (hiff.mpr hv))
      · intro _
        unfold ConstantTableValue.attr
        rw [if_pos (Or.inr hrest)]

/-- C4 counterexample: for the well-formed specifier c99999999999999999999 on
an empty pool, strtoll saturates at LLONG_MAX, so the raised
IndexOutOfBoundsError reports the index 9223372036854775807 rather than the
specifier's index 99999999999999999999, contradicting the claim that the
error reports the index i for every well-formed specifier. -/
theorem c4_counterexample :
    ConstantTableValue.attr [] ("c99999999999999999999") =
      .error (.constantIndexOutOfBounds (9223372036854775807 : Int) 0) ∧
    (99999999999999999999 : Int) ≠ (9223372036854775807 : Int) := by
  exact ⟨by decide, by decide⟩

/-- C4 (amended): for every well-formed specifier c followed by digits whose
value i is representable in a signed 64-bit integer, the constant-pool
accessor materializes pool entry i when i is less than the pool size S and
otherwise raises IndexOutOfBoundsError reporting i and S; for digit strings
beyond the 64-bit range the reported index saturates to LLONG_MAX. -/
theorem c4_pool_bounds (constants : List Tensor) (ds : List Char)
    (hne : ds ≠ []) (hdig : ∀ c ∈ ds, c.isDigit = true)
    (hrange : (digitsToNat ds : Int) ≤ llmax) :
    ConstantTableValue.attr constants (String.mk ('c' :: ds)) =
      (if digitsToNat ds < constants.length
       then .ok (constants.getD (digitsToNat ds) default)
       else .error (.constantIndexOutOfBounds ((digitsToNat ds : Int))
              constants.length)) := by
  unfold ConstantTableValue.attr
  have hdata : (String.mk ('c' :: ds)).data.drop 1 = ds := rfl
  rw [hdata]
  have hstr := strtoll10_digits ds hne hdig
  rw [hstr]
  have hclamp : clampll ((digitsToNat ds : Int)) = (digitsToNat ds : Int) :=
    clampll_of_le _ (by positivity) hrange
  rw [hclamp]
  have hlen : ¬ ((String.mk ('c' :: ds)).length < 2) := by
    have hne2 : ds.length ≠ 0 := fun h0 => hne (List.eq_nil_of_length_eq_zero h0)
    show ¬ (('c' :: ds).length < 2)
    simp only [List.length_cons]
    omega
  rw [if_neg (fun h => h.elim hlen (fun h2 => h2 rfl))]
  by_cases hcmp : digitsToNat ds < constants.length
  · have hc1 : ¬ ((digitsToNat ds : Int) < 0 ∨
        ((constants.length : Int) ≤ (digitsToNat ds : Int))) := by
      push_neg
      constructor
      · positivity
      · exact_mod_cast hcmp
    rw [if_neg hc1, if_pos hcmp, Int.toNat_natCast]
  · have hc1 : ((digitsToNat ds : Int) < 0 ∨
        ((constants.length : Int) ≤ (digitsToNat ds : Int))) := by
      right; exact_mod_cast Nat.le_of_not_lt hcmp
    rw [if_pos hc1, if_neg hcmp]

/-- C4 witness: on a pool of two entries, the specifier c1 materializes entry
1 and the specifier c5 raises IndexOutOfBoundsError reporting index 5 and
pool size 2. -/
theorem c4_pool_bounds_witness :
    ConstantTableValue.attr [⟨3⟩, ⟨4⟩] (String.mk ['c', '1']) = .ok ⟨4⟩ ∧
    ConstantTableValue.attr [⟨3⟩, ⟨4⟩] (String.mk ['c', '5']) =
      .error (.constantIndexOutOfBounds (5 : Int) 2) := by
  constructor
  · rw [c4_pool_bounds [⟨3⟩, ⟨4⟩] ['1'] (by decide) (by decide) (by decide)]
    decide
  · rw [c4_pool_bounds [⟨3⟩, ⟨4⟩] ['5'] (by decide) (by decide) (by decide)]
    decide

/-- C3: version parsing succeeds with value n and leftover tokens rest exactly
when the first line is the identifier op_version_set, an equals sign, an
integral number token of value n, and a newline; every other first line
(different identifier, non-integral number, missing newline, or any other
token shape) is a parse error, and on success nothing beyond that line is
consumed. -/
theorem c3_version_header (toks : List Token) (n : Nat) (rest : List Token) :
    parseVersionNumber toks = .ok (n, rest) ↔
    ∃ text, toks = .ident ("op_version_set") :: .eq ::
      .number text n true :: .newline :: rest := by
  constructor
  · intro h
    unfold parseVersionNumber at h
    split at h
    · rename_i name text val integral rest2
      split at h
      · exact absurd h (by simp)
      · split at h
        · exact absurd h (by simp)
        · rename_i hname hint
          simp only [Except.ok.injEq, Prod.mk.injEq] at h
          obtain ⟨hval, hrest⟩ := h
          subst hval hrest
          refine ⟨text, ?_⟩
          have : name = ("op_version_set") := by
            by_contra hc; exact hname hc
          subst this
          have : integral = true := by
            cases integral
            · exact absurd rfl hint
            · rfl
          subst this
          rfl
    · exact absurd h (by simp)
  · rintro ⟨text, rfl⟩
    rfl

/-- C5: on a source unit with a valid version header defining exactly the two
methods f and g, import_methods attaches exactly f and g to the target
module, in order, each compiled with self bound to a module accessor over
that module and with the single shared per-unit environment as resolver. -/
theorem c5_import_methods_two (mod : Module) (constant_table : List Tensor)
    (text : String) (version : Nat) (f g : String) (rest : List Token) :
    import_methods mod
      (.ident ("op_version_set") :: .eq ::
        .number text version true :: .newline :: rest)
      [.ok ⟨f⟩, .ok ⟨g⟩] constant_table =
    ((mod.addMethods [f, g],
      [⟨f, .sugared (.moduleAccessor mod),
          SourceImporter.env version constant_table⟩,
       ⟨g, .sugared (.moduleAccessor mod),
          SourceImporter.env version constant_table⟩]), none) ∧
    (mod.addMethods [f, g]).methods = mod.methods ++ [f, g] := by
  constructor
  · rfl
  · cases mod
    rfl

/-- C6: on a source unit with a valid version header defining the classes A
(method mName) and B (method nName), import_libs produces one fresh module
per class, binds self for each class to a class type keyed by that class's
name over its own fresh module, and attaches each class's single method only
to its own module; a module built for one class does not resolve the other
class's method name. -/
theorem c6_import_libs_two (constant_table : List Tensor) (text : String)
    (version : Nat) (A B mName nName : String) (rest : List Token) :
    import_libs
      (.ident ("op_version_set") :: .eq ::
        .number text version true :: .newline :: rest)
      [.ok ⟨A, [⟨mName⟩]⟩, .ok ⟨B, [⟨nName⟩]⟩] constant_table =
    ([(emptyModule.addMethods [mName],
       [⟨mName, .classType A emptyModule,
           SourceImporter.env version constant_table⟩]),
      (emptyModule.addMethods [nName],
       [⟨nName, .classType B emptyModule,
           SourceImporter.env version constant_table⟩])], none) ∧
    (emptyModule.addMethods [mName]).methods = [mName] ∧
    (emptyModule.addMethods [nName]).methods = [nName] ∧
    (mName ≠ nName →
      ModuleAccessorValue.attr (emptyModule.addMethods [mName]) ⟨[]⟩ nName =
        .error (.unknownAttr nName)) := by
  refine ⟨rfl, rfl, rfl, ?_⟩
  intro hne
  unfold ModuleAccessorValue.attr
  have hm : (emptyModule.addMethods [mName]).find_method nName = none := by
    unfold Module.find_method
    show List.find? (fun n => n == nName) [mName] = none
    simp [List.find?, beq_eq_false_iff_ne.mpr hne]
  rw [hm]
  rfl

/-- C6 witness: instantiating the theorem at concrete classes A (method m)
and B (method n), the module built for A reports an unknown attr for n. -/
theorem c6_witness :
    ModuleAccessorValue.attr (emptyModule.addMethods [("m")]) ⟨[]⟩ ("n") =
      .error (.unknownAttr ("n")) :=
  (c6_import_libs_two [] ("0") 0 ("A") ("B") ("m") ("n") []).2.2.2 (by decide)

/-- C7: the per-source-unit resolver returns a value exactly for the seven
fixed names torch, ops, CONSTANTS, fork, annotate, inf and nan; every other
name yields not-found (none), no error being raised. -/
theorem c7_env_names (version : Nat) (constant_table : List Tensor)
    (name : String) :
    (SourceImporter.resolver (SourceImporter.env version constant_table)
        name).isSome ↔
    name ∈ [("torch"), ("ops"), ("CONSTANTS"), ("fork"), ("annotate"),
      ("inf"), ("nan")] := by
  unfold SourceImporter.resolver SourceImporter.env
  rw [Option.isSome_map']
  rw [List.find?_isSome]
  constructor
  · rintro ⟨x, hx, hpx⟩
    have hx1 : x.1 = name := by simpa using hpx
    subst hx1
    fin_cases hx <;> simp
  · intro h
    fin_cases h
    · exact ⟨(("torch"), .builtinModule ("aten") version), by simp, by simp⟩
    · exact ⟨(("ops"), .opsValue version), by simp, by simp⟩
    · exact ⟨(("CONSTANTS"), .constantTable constant_table), by simp, by simp⟩
    · exact ⟨(("fork"), .forkValue), by simp, by simp⟩
    · exact ⟨(("annotate"), .annotateValue), by simp, by simp⟩
    · exact ⟨(("inf"), .constantValue (.double .posInf)), by simp, by simp⟩
    · exact ⟨(("nan"), .constantValue (.double .quietNaN)), by simp, by simp⟩

/-- C9: for every version number and constant pool, the top-level names inf
and nan resolve to literal constants holding positive double infinity and a
quiet NaN respectively; neither depends on the version or the pool. -/
theorem c9_inf_nan (version : Nat) (constant_table : List Tensor) :
    SourceImporter.resolver (SourceImporter.env version constant_table)
      ("inf") = some (.constantValue (.double .posInf)) ∧
    SourceImporter.resolver (SourceImporter.env version constant_table)
      ("nan") = some (.constantValue (.double .quietNaN)) := by
  exact ⟨rfl, rfl⟩

/-- C2: module-tree resolution returns the first match in the fixed order
submodule, parameter slot, buffer slot, typed attribute, method — yielding
respectively a module accessor, an interned slot reference, an interned slot
reference, a typed interned slot reference, and a method reference bound to
the producing module — and reports an unknown attr naming the field exactly
when none of the five namespaces contains it. -/
theorem c2_resolution_order (mod : Module) (st : MethodState) (f : String) :
    (∀ sm, mod.find_module f = some sm →
      ModuleAccessorValue.attr mod st f = .ok (.moduleAccessor sm, st)) ∧
    (mod.find_module f = none → ∀ s, mod.find_parameter f = some s →
      ModuleAccessorValue.attr mod st f =
        .ok (.simpleValue (Method.get_or_add_parameter st s).1,
             (Method.get_or_add_parameter st s).2)) ∧
    (mod.find_module f = none → mod.find_parameter f = none →
      ∀ s, mod.find_buffer f = some s →
      ModuleAccessorValue.attr mod st f =
        .ok (.simpleValue (Method.get_or_add_parameter st s).1,
             (Method.get_or_add_parameter st s).2)) ∧
    (mod.find_module f = none → mod.find_parameter f = none →
      mod.find_buffer f = none → ∀ ts, mod.find_attribute f = some ts →
      ModuleAccessorValue.attr mod st f =
        .ok (.simpleValue (Method.get_or_add_attribute st ts.1 ts.2).1,
             (Method.get_or_add_attribute st ts.1 ts.2).2)) ∧
    (mod.find_module f = none → mod.find_parameter f = none →
      mod.find_buffer f = none → mod.find_attribute f = none →
      ∀ mn, mod.find_method f = some mn →
      ModuleAccessorValue.attr mod st f = .ok (.methodValue mod mn, st)) ∧
    (ModuleAccessorValue.attr mod st f = .error (.unknownAttr f) ↔
      (mod.find_module f = none ∧ mod.find_parameter f = none ∧
       mod.find_buffer f = none ∧ mod.find_attribute f = none ∧
       mod.find_method f = none)) := by
  refine ⟨?_, ?_, ?_, ?_, ?_, ?_⟩
  · intro sm h
    unfold ModuleAccessorValue.attr
    rw [h]
  · intro h0 s h
    unfold ModuleAccessorValue.attr
    rw [h0, h]
  · intro h0 h1 s h
    unfold ModuleAccessorValue.attr
    rw [h0, h1, h]
  · intro h0 h1 h2 ts h
    unfold ModuleAccessorValue.attr
    rw [h0, h1, h2, h]
  · intro h0 h1 h2 h3 mn h
    unfold ModuleAccessorValue.attr
    rw [h0, h1, h2, h3, h]
  · constructor
    · intro h
      unfold ModuleAccessorValue.attr at h
      cases h0 : mod.find_module f with
      | some v => rw [h0] at h; exact absurd h (by simp)
      | none =>
      rw [h0] at h
      cases h1 : mod.find_parameter f with
      | some s => rw [h1] at h; exact absurd h (by simp)
      | none =>
      rw [h1] at h
      cases h2 : mod.find_buffer f with
      | some s => rw [h2] at h; exact absurd h (by simp)
      | none =>
      rw [h2] at h
      cases h3 : mod.find_attribute f with
      | some ts => rw [h3] at h; exact absurd h (by simp)
      | none =>
      rw [h3] at h
      cases h4 : mod.find_method f with
      | some mn => rw [h4] at h; exact absurd h (by simp)
      | none => exact ⟨rfl, rfl, rfl, rfl, rfl⟩
    · rintro ⟨h0, h1, h2, h3, h4⟩
      unfold ModuleAccessorValue.attr
      rw [h0, h1, h2, h3, h4]

/-- C2 witness: on a concrete module holding a parameter w with slot 7 and
an empty interning state, resolution interns the slot as input 0. -/
theorem c2_witness :
    ModuleAccessorValue.attr (.mk [] [(("w"), 7)] [] [] []) ⟨[]⟩ ("w") =
      .ok (.simpleValue (.slotRef 0), ⟨[7]⟩) :=
  (c2_resolution_order (.mk [] [(("w"), 7)] [] [] []) ⟨[]⟩ ("w")).2.1 rfl 7 rfl

theorem internSlot_stable (l : List Slot) (s : Slot) :
    internSlot (internSlot l s).2 s = internSlot l s := by
  induction l with
  | nil => simp [internSlot]
  | cons t ts ih =>
    by_cases h : t = s
    · simp [internSlot, h]
    · simp only [internSlot, h, if_false]
      rw [ih]

/-- C8: slot interning is idempotent within one method body: once a
parameter, buffer or typed-attribute field has been resolved (yielding a
simple value over an interned slot and an updated interning state), resolving
the same field again from that state yields the identical reference and
leaves the state unchanged — one shared slot, never a duplicate. -/
theorem c8_interning_idempotent (mod : Module) (st st2 : MethodState)
    (f : String) (v : Value)
    (h : ModuleAccessorValue.attr mod st f = .ok (.simpleValue v, st2)) :
    ModuleAccessorValue.attr mod st2 f = .ok (.simpleValue v, st2) := by
  unfold ModuleAccessorValue.attr at h ⊢
  cases h0 : mod.find_module f with
  | some w => rw [h0] at h; exact absurd h (by simp)
  | none =>
  rw [h0] at h
  cases h1 : mod.find_parameter f with
  | some s =>
    rw [h1] at h
    simp only [Method.get_or_add_parameter, Except.ok.injEq, Prod.mk.injEq,
      SugaredValue.simpleValue.injEq] at h ⊢
    obtain ⟨hv, hst⟩ := h
    subst hst
    constructor
    · rw [← hv]
      show Value.slotRef (internSlot (internSlot st.member_inputs s).2 s).1 =
        Value.slotRef (internSlot st.member_inputs s).1
      rw [internSlot_stable]
    · show MethodState.mk (internSlot (internSlot st.member_inputs s).2 s).2 =
        MethodState.mk (internSlot st.member_inputs s).2
      rw [internSlot_stable]
  | none =>
  rw [h1] at h
  cases h2 : mod.find_buffer f with
  | some s =>
    rw [h2] at h
    simp only [Method.get_or_add_parameter, Except.ok.injEq, Prod.mk.injEq,
      SugaredValue.simpleValue.injEq] at h ⊢
    obtain ⟨hv, hst⟩ := h
    subst hst
    constructor
    · rw [← hv]
      show Value.slotRef (internSlot (internSlot st.member_inputs s).2 s).1 =
        Value.slotRef (internSlot st.member_inputs s).1
      rw [internSlot_stable]
    · show MethodState.mk (internSlot (internSlot st.member_inputs s).2 s).2 =
        MethodState.mk (internSlot st.member_inputs s).2
      rw [internSlot_stable]
  | none =>
  rw [h2] at h
  cases h3 : mod.find_attribute f with
  | some ts =>
    rw [h3] at h
    simp only [Method.get_or_add_attribute, Except.ok.injEq, Prod.mk.injEq,
      SugaredValue.simpleValue.injEq] at h ⊢
    obtain ⟨hv, hst⟩ := h
    subst hst
    constructor
    · rw [← hv]
      show Value.typedSlotRef ts.1
          (internSlot (internSlot st.member_inputs ts.2).2 ts.2).1 =
        Value.typedSlotRef ts.1 (internSlot st.member_inputs ts.2).1
      rw [internSlot_stable]
    · show MethodState.mk (internSlot (internSlot st.member_inputs ts.2).2 ts.2).2 =
        MethodState.mk (internSlot st.member_inputs ts.2).2
      rw [internSlot_stable]
  | none =>
  rw [h3] at h
  cases h4 : mod.find_method f with
  | some mn => rw [h4] at h; exact absurd h (by simp)
  | none => rw [h4] at h; exact absurd h (by simp)

/-- C8 witness: with parameter slot 7 already interned as input 0, resolving
the same field again returns input 0 and does not extend the state. -/
theorem c8_witness :
    ModuleAccessorValue.attr (.mk [] [(("w"), 7)] [] [] []) ⟨[7]⟩ ("w") =
      .ok (.simpleValue (.slotRef 0), ⟨[7]⟩) :=
  c8_interning_idempotent (.mk [] [(("w"), 7)] [] [] []) ⟨[]⟩ ⟨[7]⟩ ("w")
    (.slotRef 0) rfl

theorem parseFunctions_error_of_mem (raws : List (Except ImportErr Def))
    (e : ImportErr) (h : Except.error e ∈ raws) :
    ∃ e2, parseFunctions raws = .error e2 := by
  induction raws with
  | nil => exact absurd h (by simp)
  | cons r rest ih =>
    cases r with
    | error e3 => exact ⟨e3, rfl⟩
    | ok d =>
      have hmem : Except.error e ∈ rest := by
        rcases List.mem_cons.mp h with h5 | h5
        · exact absurd h5 (by simp)
        · exact h5
      obtain ⟨e2, he2⟩ := ih hmem
      refine ⟨e2, ?_⟩
      unfold parseFunctions
      rw [he2]

/-- C10: import_methods parses every definition to completion before
attaching anything: whenever any definition in the stream fails to parse, the
whole call reports an error and returns the target module unchanged with no
attachments, so the module gains zero new methods. -/
theorem c10_no_partial_attach (mod : Module) (tokens : List Token)
    (raws : List (Except ImportErr Def)) (constant_table : List Tensor)
    (e : ImportErr) (h : Except.error e ∈ raws) :
    ∃ e2, import_methods mod tokens raws constant_table =
      ((mod, []), some e2) := by
  unfold import_methods
  cases hv : parseVersionNumber tokens with
  | error e3 => exact ⟨e3, rfl⟩
  | ok p =>
    obtain ⟨e2, he2⟩ := parseFunctions_error_of_mem raws e h
    refine ⟨e2, ?_⟩
    rw [he2]

/-- C10 witness: with a valid version header and a stream whose second
definition fails to parse, nothing is attached and the module is unchanged. -/
theorem c10_witness :
    ∃ e2, import_methods emptyModule
      [.ident ("op_version_set"), .eq, .number ("0") 0 true, .newline]
      [.ok ⟨("f")⟩, .error .externalParseError] [] =
      ((emptyModule, []), some e2) :=
  c10_no_partial_attach emptyModule
    [.ident ("op_version_set"), .eq, .number ("0") 0 true, .newline]
    [.ok ⟨("f")⟩, .error .externalParseError] [] .externalParseError (by decide)

end ImportSource
